import Mathlib

/-!
Verification of the pointer-input engine of `src/ux/ux.c` (digilogic).

The embedding below translates the source into Lean:
  * 2D vectors (`HMM_Vec2`, floats) become pairs of rationals; exact real
    arithmetic stands in for IEEE floats, as the spec's properties are stated
    "exactly under real arithmetic".
  * the `MouseDownState` enum and the transition `switch` of
    `ux_mouse_down_state_machine` become an inductive type and a function;
  * the per-frame fixed-point loop, its exit/entry actions and the continuous
    actions become explicit state-passing functions;
  * `ux_zoom` and the vertex-reconciliation loop of `ux_route` become pure
    functions on the camera scalars resp. on the per-net vertex list.
-/

/-- 2D vector, standing in for `HMM_Vec2` (components `X`, `Y`). -/
abbrev Vec2 : Type := ℚ × ℚ

/-- `HMM_Add` on `HMM_Vec2`. -/
def HMM_Add (a b : Vec2) : Vec2 := (a.1 + b.1, a.2 + b.2)

/-- `HMM_Sub` on `HMM_Vec2`. -/
def HMM_Sub (a b : Vec2) : Vec2 := (a.1 - b.1, a.2 - b.2)

/-- `HMM_MulV2F`: scale a vector by a scalar. -/
def HMM_MulV2F (v : Vec2) (f : ℚ) : Vec2 := (v.1 * f, v.2 * f)

/-- `HMM_DivV2F`: divide a vector by a scalar. -/
def HMM_DivV2F (v : Vec2) (f : ℚ) : Vec2 := (v.1 / f, v.2 / f)

/-- `HMM_LenSqrV2`: squared euclidean length. -/
def HMM_LenSqrV2 (v : Vec2) : ℚ := v.1 * v.1 + v.2 * v.2

/-- `Box` from `core/core.h`: axis-aligned box as center plus half-size. -/
structure Box where
  center : Vec2
  halfSize : Vec2
deriving DecidableEq

/-- Modelled from the spec: `box_intersect_point` of `core/core.h` (declared
only; the definition is not under `src/`): the point lies in the closed
axis-aligned box. -/
def box_intersect_point (b : Box) (p : Vec2) : Bool :=
  decide (|p.1 - b.center.1| ≤ b.halfSize.1 ∧ |p.2 - b.center.2| ≤ b.halfSize.2)

/-- Modelled from the spec: `box_intersect_box` of `core/core.h` (declared
only; the definition is not under `src/`): closed AABB intersection test. -/
def box_intersect_box (a b : Box) : Bool :=
  decide (|a.center.1 - b.center.1| ≤ a.halfSize.1 + b.halfSize.1 ∧
          |a.center.2 - b.center.2| ≤ a.halfSize.2 + b.halfSize.2)

/-- Modelled from the spec: `box_from_tlbr` of `core/core.h` (declared only;
the definition is not under `src/`): the box spanned by two corner points,
normalized so the half-size is non-negative regardless of drag direction. -/
def box_from_tlbr (tl br : Vec2) : Box :=
  { center := ((tl.1 + br.1) / 2, (tl.2 + br.2) / 2),
    halfSize := (|br.1 - tl.1| / 2, |br.2 - tl.2| / 2) }

/-- The `MouseDownState` enum of `ux.h` / `ux.c`
(`STATE_UP` … `STATE_FLOATING_WIRE`). -/
inductive MouseDownState where
  | up
  | down
  | click
  | deselect
  | selectArea
  | selectOne
  | moveSelection
  | clickPort
  | dragWiring
  | clickWiring
  | connectPort
  | floatingWire
deriving DecidableEq, Fintype

/-- The six per-frame boolean predicates read by the transition switch of
`ux_mouse_down_state_machine` (ux.c lines 146-167). -/
structure SMInput where
  down : Bool
  overPort : Bool
  overComponent : Bool
  move : Bool
  selected : Bool
  inSelection : Bool
deriving DecidableEq, Fintype

/-- The transition `switch` of `ux_mouse_down_state_machine`
(ux.c lines 171-256), translated case by case.  In the C source
`STATE_CONNECT_PORT` falls through into `STATE_FLOATING_WIRE`'s check, but
only when `down` holds, in which case that check (`if (!down)`) does nothing;
so the fallthrough is vacuous and both cases read `if (!down) state = UP`. -/
def smTransition (s : MouseDownState) (i : SMInput) : MouseDownState :=
  match s with
  | .up =>
      if i.down then
        if i.inSelection then .moveSelection
        else if i.overPort then .clickPort
        else if i.overComponent then .selectOne
        else .down
      else .up
  | .down =>
      if !i.down then
        if i.selected then .deselect else .click
      else if i.move && !i.selected then .selectArea
      else .down
  | .click => if !i.down then .up else .click
  | .deselect => if !i.down then .up else .deselect
  | .selectArea => if !i.down then .up else .selectArea
  | .selectOne =>
      if !i.down then .up
      else if i.move then .moveSelection
      else .selectOne
  | .moveSelection => if !i.down then .up else .moveSelection
  | .clickPort =>
      if i.down then .clickWiring
      else if i.move then .dragWiring
      else .clickPort
  | .dragWiring =>
      if i.overPort && !i.down then .connectPort
      else if !i.overPort && !i.down then .floatingWire
      else .dragWiring
  | .clickWiring =>
      if i.down then
        if i.overPort then .connectPort else .floatingWire
      else .clickWiring
  | .connectPort => if !i.down then .up else .connectPort
  | .floatingWire => if !i.down then .up else .floatingWire

/-- The transition table of the same switch as a relation: one disjunct per
guarded assignment of ux.c lines 171-256, plus the implicit stay-put row with
all guards of the case negated. -/
def smTrans (s : MouseDownState) (i : SMInput) (t : MouseDownState) : Prop :=
  match s with
  | .up =>
      (i.down = true ∧ i.inSelection = true ∧ t = .moveSelection) ∨
      (i.down = true ∧ i.inSelection = false ∧ i.overPort = true ∧
        t = .clickPort) ∨
      (i.down = true ∧ i.inSelection = false ∧ i.overPort = false ∧
        i.overComponent = true ∧ t = .selectOne) ∨
      (i.down = true ∧ i.inSelection = false ∧ i.overPort = false ∧
        i.overComponent = false ∧ t = .down) ∨
      (i.down = false ∧ t = .up)
  | .down =>
      (i.down = false ∧ i.selected = true ∧ t = .deselect) ∨
      (i.down = false ∧ i.selected = false ∧ t = .click) ∨
      (i.down = true ∧ i.move = true ∧ i.selected = false ∧
        t = .selectArea) ∨
      (i.down = true ∧ ¬(i.move = true ∧ i.selected = false) ∧ t = .down)
  | .click =>
      (i.down = false ∧ t = .up) ∨ (i.down = true ∧ t = .click)
  | .deselect =>
      (i.down = false ∧ t = .up) ∨ (i.down = true ∧ t = .deselect)
  | .selectArea =>
      (i.down = false ∧ t = .up) ∨ (i.down = true ∧ t = .selectArea)
  | .selectOne =>
      (i.down = false ∧ t = .up) ∨
      (i.down = true ∧ i.move = true ∧ t = .moveSelection) ∨
      (i.down = true ∧ i.move = false ∧ t = .selectOne)
  | .moveSelection =>
      (i.down = false ∧ t = .up) ∨ (i.down = true ∧ t = .moveSelection)
  | .clickPort =>
      (i.down = true ∧ t = .clickWiring) ∨
      (i.down = false ∧ i.move = true ∧ t = .dragWiring) ∨
      (i.down = false ∧ i.move = false ∧ t = .clickPort)
  | .dragWiring =>
      (i.overPort = true ∧ i.down = false ∧ t = .connectPort) ∨
      (i.overPort = false ∧ i.down = false ∧ t = .floatingWire) ∨
      (i.down = true ∧ t = .dragWiring)
  | .clickWiring =>
      (i.down = true ∧ i.overPort = true ∧ t = .connectPort) ∨
      (i.down = true ∧ i.overPort = false ∧ t = .floatingWire) ∨
      (i.down = false ∧ t = .clickWiring)
  | .connectPort =>
      (i.down = false ∧ t = .up) ∨ (i.down = true ∧ t = .connectPort)
  | .floatingWire =>
      (i.down = false ∧ t = .up) ∨ (i.down = true ∧ t = .floatingWire)

instance (s : MouseDownState) (i : SMInput) (t : MouseDownState) :
    Decidable (smTrans s i t) := by
  unfold smTrans; cases s <;> infer_instance

instance (p : MouseDownState → Prop) [DecidablePred p] :
    Decidable (ExistsUnique p) :=
  decidable_of_iff (∃ t, p t ∧ ∀ y, p y → y = t) Iff.rfl

/-- Iterating the transition switch with the input tuple held fixed: the
within-frame chain of ux.c lines 152-290, abstracted over fixed predicates. -/
def smChain (i : SMInput) (n : Nat) (s : MouseDownState) : MouseDownState :=
  (fun t => smTransition t i)^[n] s

/-- Claim C3: the single-step transition of the pointer interaction state
machine is total and deterministic: for every state and every combination of
the six boolean inputs, the transition table relates the state to exactly one
next state, and that state is the one the transition switch produces. -/
theorem smTransition_total_deterministic :
    ∀ (s : MouseDownState) (i : SMInput),
      (∃! t, smTrans s i t) ∧ smTrans s i (smTransition s i) := by
  decide

/-- Witness for C3: the totality/determinism theorem instantiated at the
concrete state `up` with all inputs true. -/
theorem smTransition_total_deterministic_witness :
    (∃! t, smTrans .up ⟨true, true, true, true, true, true⟩ t) ∧
      smTrans .up ⟨true, true, true, true, true, true⟩
        (smTransition .up ⟨true, true, true, true, true, true⟩) :=
  smTransition_total_deterministic .up ⟨true, true, true, true, true, true⟩

/-- Claim C10: with the per-frame input tuple held fixed, the within-frame
chain of transitions settles: after at most three steps a state with no
further transition is reached, for every starting state and input
combination (so no within-frame cycle of distinct states exists). -/
theorem smChain_terminates :
    ∀ (s : MouseDownState) (i : SMInput),
      smTransition (smChain i 3 s) i = smChain i 3 s := by
  decide

/-- Claim C2 (code evaluation): in `STATE_CLICK_PORT` with the button held and
the move predicate true — the only way `move` can be true, since ux.c line
153 defines `move` as `down && …` — the switch takes the `if (down)` branch
first and produces `STATE_CLICK_WIRING`, not `STATE_DRAG_WIRING`; the
`else if (move)` branch to `STATE_DRAG_WIRING` is unreachable, contradicting
the state diagram documented at ux.c lines 120-144
(`ClickPort --> DragWiring : move`, `ClickPort --> ClickWiring : !down`). -/
theorem clickPort_move_gives_clickWiring :
    smTransition .clickPort ⟨true, true, false, true, false, false⟩ =
        .clickWiring ∧
      smTransition .clickPort ⟨true, true, false, true, false, false⟩ ≠
        .dragWiring := by
  decide

/-- The slice of `CircuitView` read and written by
`ux_mouse_down_state_machine`: component boxes (index = `ComponentID`), the
selected-component array, the selection box, and the hover results of the
hit-test pass (`none` stands for `NO_COMPONENT` / `NO_PORT`), plus the zoom
factor used by the `move` threshold. -/
structure UXView where
  components : List Box
  selectedComponents : List Nat
  selectionBox : Box
  hoveredComponent : Option Nat
  hoveredPort : Option Nat
  zoom : ℚ
deriving DecidableEq

/-- The slice of `CircuitUX` the state machine works on: the view slice, the
current `mouseDownState` and the `downStart` anchor. -/
structure UXState where
  view : UXView
  mouseDownState : MouseDownState
  downStart : Vec2
deriving DecidableEq

/-- The predicate computations at the top of the within-frame loop
(ux.c lines 153-167).  `move` compares `HMM_LenV2 (pos - downStart)` with
`10 * zoom`; here it is stated on squared lengths, which agrees with the
source whenever `10 * zoom ≥ 0` — and `zoom = powf(1.1, e)` is always
positive. -/
def smInputs (s : UXState) (dn : Bool) (pos : Vec2) : SMInput :=
  { down := dn
    overPort := s.view.hoveredPort.isSome
    overComponent := s.view.hoveredComponent.isSome
    move := dn && decide ((10 * s.view.zoom) * (10 * s.view.zoom) <
      HMM_LenSqrV2 (HMM_Sub pos s.downStart))
    selected := decide (0 < s.view.selectedComponents.length) ||
      decide (0 < HMM_LenSqrV2 s.view.selectionBox.halfSize)
    inSelection := box_intersect_point s.view.selectionBox pos ||
      s.view.selectedComponents.any (fun id =>
        box_intersect_point (s.view.components.getD id ⟨(0, 0), (0, 0)⟩) pos) }

/-- The exit- and entry-action switches run when a transition fired
(ux.c lines 258-287): exiting `STATE_UP` records `downStart`; entering
`STATE_DESELECT` clears the selection and zeroes the selection box; entering
`STATE_SELECT_ONE` clears the selection and pushes the hovered component
(`Option.toList` renders `arrput(…, hoveredComponent)`, reachable only when a
component is hovered).  The new state is stored. -/
def smApplyActions (s : UXState) (oldSt newSt : MouseDownState) (pos : Vec2) :
    UXState :=
  let s1 : UXState :=
    match oldSt with
    | .up => { s with downStart := pos }
    | _ => s
  let s2 : UXState :=
    match newSt with
    | .deselect =>
        { s1 with
          view := { s1.view with
                    selectedComponents := [],
                    selectionBox := ⟨(0, 0), (0, 0)⟩ } }
    | .selectOne =>
        { s1 with
          view := { s1.view with
                    selectedComponents := s1.view.hoveredComponent.toList } }
    | _ => s1
  { s2 with mouseDownState := newSt }

/-- The within-frame fixed-point loop (ux.c lines 152-290): recompute the
predicates, take one transition, run exit/entry actions when the state
changed, and repeat until the state is stable.  The C `for (;;)` loop is
rendered with a fuel argument; `smChain_terminates` bounds the chain length
for fixed inputs, and every concrete run below settles well within the fuel
given by `smFrame`. -/
def smLoop : Nat → UXState → Bool → Vec2 → UXState
  | 0, s, _, _ => s
  | fuel + 1, s, dn, pos =>
      let i := smInputs s dn pos
      let newSt := smTransition s.mouseDownState i
      if newSt = s.mouseDownState then s
      else smLoop fuel (smApplyActions s s.mouseDownState newSt pos) dn pos

/-- `updateAt l i f` applies `f` to the element at index `i`
(`ux->view.components[id]` read-modify-write); out-of-range indices are left
alone (the C source never indexes out of range on the paths modelled). -/
def updateAt (l : List Box) (i : Nat) (f : Box → Box) : List Box :=
  match l[i]? with
  | some b => l.set i (f b)
  | none => l

/-- The continuous action of `STATE_MOVE_SELECTION` (ux.c lines 294-307):
add `delta = pos - downStart` to every selected component's box center and to
the selection box center, then reset `downStart` to `pos`.  The calls to
`avoid_move_node` and `ux_route` mirror the move into the external routing
engine and the per-net vertices; they touch no field of this state slice. -/
def moveSelectionAction (s : UXState) (pos : Vec2) : UXState :=
  let delta := HMM_Sub pos s.downStart
  let comps := s.view.selectedComponents.foldl
    (fun cs id => updateAt cs id
      (fun b => { b with center := HMM_Add b.center delta }))
    s.view.components
  let box := { s.view.selectionBox with
               center := HMM_Add s.view.selectionBox.center delta }
  { s with
    view := { s.view with components := comps, selectionBox := box },
    downStart := pos }

/-- The continuous action of `STATE_SELECT_AREA` (ux.c lines 308-317):
rebuild the selection box from `downStart` and the current position, empty
the selected-component array, and push every component whose box intersects
the selection box, in index order. -/
def selectAreaAction (s : UXState) (pos : Vec2) : UXState :=
  let rect := box_from_tlbr s.downStart pos
  let sel := (List.range s.view.components.length).foldl
    (fun acc i =>
      if box_intersect_box (s.view.components.getD i ⟨(0, 0), (0, 0)⟩) rect
      then acc ++ [i] else acc)
    []
  { s with
    view := { s.view with
              selectionBox := rect,
              selectedComponents := sel } }

/-- One full call of `ux_mouse_down_state_machine` (ux.c lines 145-323): run
the transition loop to its fixed point, then the continuous action of the
settled state.  Fuel 13 exceeds the longest possible chain of state
changes. -/
def smFrame (s : UXState) (dn : Bool) (pos : Vec2) : UXState :=
  let s1 := smLoop 13 s dn pos
  match s1.mouseDownState with
  | .moveSelection => moveSelectionAction s1 pos
  | .selectArea => selectAreaAction s1 pos
  | _ => s1

/-- Press-over-a-port scenario, initial state: empty circuit view except a
hovered port, empty selection, zero selection box, machine in `Up`, zoom 1. -/
def c1View : UXView :=
  { components := [], selectedComponents := [],
    selectionBox := ⟨(0, 0), (0, 0)⟩,
    hoveredComponent := none, hoveredPort := some 0, zoom := 1 }

/-- Initial `UXState` of the press-over-a-port scenario. -/
def c1State0 : UXState :=
  { view := c1View, mouseDownState := .up, downStart := (0, 0) }

/-- The pointer's world position in the scenario (kept fixed: the release
happens without any movement, so the move threshold is never crossed). -/
def c1Pos : Vec2 := (100, 100)

/-- Frame 1 of the scenario: button pressed over the port. -/
def c1Frame1 : UXState := smFrame c1State0 true c1Pos

/-- Frame 2 of the scenario: button released, pointer unmoved. -/
def c1Frame2 : UXState := smFrame c1Frame1 false c1Pos

/-- Frame 3 of the scenario: second press, still over the port. -/
def c1Frame3 : UXState := smFrame c1Frame2 true c1Pos

/-- Claim C1 (counterexample): after the first press sample over a port the
machine is not resident in `ClickPort` at frame end — the within-frame chain
has already left it (`down` is still true, so the `if (down)` branch of
`STATE_CLICK_PORT` fires in the same chain), so the claimed frame sequence
`Up, ClickPort, ClickWiring` never arises. -/
theorem clickPort_not_resident_after_press :
    c1Frame1.mouseDownState ≠ MouseDownState.clickPort := by
  with_unfolding_all decide

/-- Claim C1 (amended): on a press over a port the within-frame chain runs
`Up → ClickPort → ClickWiring → ConnectPort` and the frame ends in
`ConnectPort`; releasing returns to `Up`, and a second press over the port
repeats the chain to `ConnectPort` — the observable frame sequence of the
press / release-below-threshold / press-again run is
`Up, ConnectPort, Up, ConnectPort`. -/
theorem press_over_port_run :
    c1Frame1.mouseDownState = MouseDownState.connectPort ∧
      c1Frame2.mouseDownState = MouseDownState.up ∧
      c1Frame3.mouseDownState = MouseDownState.connectPort := by
  with_unfolding_all decide

/-- Claim C5: whenever a transition enters `SelectOne` (taken only when a
component is hovered), the entry action of ux.c lines 276-279 — empty the
array, push the hovered component — leaves the selection with exactly one
member, the component hovered at entry time, whatever the prior selection
and selection box were. -/
theorem enter_selectOne_selection_singleton :
    ∀ (s : UXState) (dn : Bool) (pos : Vec2) (c : Nat),
      s.view.hoveredComponent = some c →
      smTransition s.mouseDownState (smInputs s dn pos) = .selectOne →
      s.mouseDownState ≠ .selectOne →
      (smApplyActions s s.mouseDownState .selectOne pos).view.selectedComponents
          = [c] ∧
        (smApplyActions s s.mouseDownState .selectOne
            pos).view.selectedComponents.length = 1 := by
  intro s dn pos c hc _ _
  obtain ⟨view, st, ds⟩ := s
  simp only at hc
  cases st <;> simp [smApplyActions, hc]

/-- Witness for C5: a concrete state in `Up`, pressed over component 7 with
nothing selected, where the transition into `SelectOne` fires. -/
theorem enter_selectOne_selection_singleton_witness :
    (smApplyActions
        ⟨⟨[⟨(50, 50), (5, 5)⟩], [], ⟨(0, 0), (0, 0)⟩, some 7, none, 1⟩,
          .up, (0, 0)⟩
        .up .selectOne (50, 50)).view.selectedComponents = [7] ∧
      (smApplyActions
          ⟨⟨[⟨(50, 50), (5, 5)⟩], [], ⟨(0, 0), (0, 0)⟩, some 7, none, 1⟩,
            .up, (0, 0)⟩
          .up .selectOne (50, 50)).view.selectedComponents.length = 1 :=
  enter_selectOne_selection_singleton
    ⟨⟨[⟨(50, 50), (5, 5)⟩], [], ⟨(0, 0), (0, 0)⟩, some 7, none, 1⟩,
      .up, (0, 0)⟩
    true (50, 50) 7 rfl (by with_unfolding_all decide)
    (by with_unfolding_all decide)

/-- The conditional-append loop over component indices (`arrput` under an
`if`) builds exactly the filtered index list. -/
theorem foldl_push_filter (p : Nat → Bool) :
    ∀ (l : List Nat) (acc : List Nat),
      l.foldl (fun acc i => if p i then acc ++ [i] else acc) acc =
        acc ++ l.filter p := by
  intro l
  induction l with
  | nil => intro acc; simp
  | cons x t ih =>
      intro acc
      by_cases hp : p x = true
      · simp [List.foldl_cons, hp, ih, List.filter_cons]
      · simp only [Bool.not_eq_true] at hp
        simp [List.foldl_cons, hp, ih, List.filter_cons]

/-- Claim C6: after one frame resident in `SelectArea`, the selection is
exactly the list of component indices whose box intersects the selection
rectangle spanned by `downStart` and the current pointer position — rebuilt
from empty each frame, independent of the previous selection. -/
theorem selectArea_selection_exact :
    ∀ (s : UXState) (pos : Vec2),
      (selectAreaAction s pos).view.selectedComponents =
        (List.range s.view.components.length).filter
          (fun i => box_intersect_box
            (s.view.components.getD i ⟨(0, 0), (0, 0)⟩)
            (box_from_tlbr s.downStart pos)) ∧
      ∀ i : Nat,
        i ∈ (selectAreaAction s pos).view.selectedComponents ↔
          i < s.view.components.length ∧
            box_intersect_box (s.view.components.getD i ⟨(0, 0), (0, 0)⟩)
              (box_from_tlbr s.downStart pos) = true := by
  intro s pos
  have hsel : (selectAreaAction s pos).view.selectedComponents =
      (List.range s.view.components.length).filter
        (fun i => box_intersect_box
          (s.view.components.getD i ⟨(0, 0), (0, 0)⟩)
          (box_from_tlbr s.downStart pos)) := by
    simp [selectAreaAction, foldl_push_filter]
  refine ⟨hsel, fun i => ?_⟩
  rw [hsel, List.mem_filter, List.mem_range]

/-- `updateAt` leaves every other index unchanged. -/
theorem updateAt_getElem_ne (l : List Box) (i : Nat) (f : Box → Box)
    (j : Nat) (h : j ≠ i) : (updateAt l i f)[j]? = l[j]? := by
  unfold updateAt
  cases hi : l[i]? with
  | none => rfl
  | some b => exact List.getElem?_set_ne (fun he => h he.symm)

/-- `updateAt` maps the element at the updated index through `f`. -/
theorem updateAt_getElem_self (l : List Box) (i : Nat) (f : Box → Box)
    (b : Box) (h : l[i]? = some b) : (updateAt l i f)[i]? = some (f b) := by
  unfold updateAt
  rw [h]
  obtain ⟨hlt, -⟩ := List.getElem?_eq_some.mp h
  exact List.getElem?_set_eq_of_lt _ hlt

/-- Folding `updateAt` over a list of indices not containing `j` leaves
index `j` unchanged. -/
theorem foldl_updateAt_not_mem (f : Box → Box) :
    ∀ (ids : List Nat) (cs : List Box) (j : Nat), j ∉ ids →
      (ids.foldl (fun cs id => updateAt cs id f) cs)[j]? = cs[j]? := by
  intro ids
  induction ids with
  | nil => intro cs j _; rfl
  | cons x t ih =>
      intro cs j hj
      rw [List.mem_cons, not_or] at hj
      rw [List.foldl_cons, ih _ _ hj.2, updateAt_getElem_ne _ _ _ _ hj.1]

/-- Folding `updateAt` over a duplicate-free list of indices containing `j`
maps the element at `j` through `f` exactly once. -/
theorem foldl_updateAt_mem (f : Box → Box) :
    ∀ (ids : List Nat) (cs : List Box) (j : Nat) (b : Box), ids.Nodup →
      j ∈ ids → cs[j]? = some b →
      (ids.foldl (fun cs id => updateAt cs id f) cs)[j]? = some (f b) := by
  intro ids
  induction ids with
  | nil => intro cs j b _ hj; exact absurd hj (List.not_mem_nil j)
  | cons x t ih =>
      intro cs j b hnd hj hb
      rw [List.nodup_cons] at hnd
      rw [List.foldl_cons]
      rcases List.mem_cons.mp hj with hx | ht
      · subst hx
        rw [foldl_updateAt_not_mem f t _ _ hnd.1]
        exact updateAt_getElem_self _ _ _ _ hb
      · have hne : j ≠ x := by
          intro he
          rw [he] at ht
          exact hnd.1 ht
        refine ih _ _ _ hnd.2 ht ?_
        rw [updateAt_getElem_ne _ _ _ _ hne]
        exact hb

/-- Chaining two incremental displacements composes: moving by `p - d` and
then by `l - p` equals moving by `l - d`. -/
theorem HMM_add_sub_chain (c p d l : Vec2) :
    HMM_Add (HMM_Add c (HMM_Sub p d)) (HMM_Sub l p) =
      HMM_Add c (HMM_Sub l d) := by
  simp only [HMM_Add, HMM_Sub, Prod.mk.injEq]
  constructor <;> ring

/-- One `MoveSelection` frame shifts a selected component's center by the
frame's delta. -/
theorem moveSelectionAction_component (s : UXState) (pos : Vec2)
    (hnd : s.view.selectedComponents.Nodup) (id : Nat) (b : Box)
    (hid : id ∈ s.view.selectedComponents)
    (hb : s.view.components[id]? = some b) :
    (moveSelectionAction s pos).view.components[id]? =
      some ⟨HMM_Add b.center (HMM_Sub pos s.downStart), b.halfSize⟩ := by
  have := foldl_updateAt_mem
    (fun c => { c with center := HMM_Add c.center (HMM_Sub pos s.downStart) })
    s.view.selectedComponents s.view.components id b hnd hid hb
  simpa [moveSelectionAction] using this

/-- Over a whole drag gesture the per-frame deltas telescope: the final
center is the starting center shifted by (final pointer position −
initial `downStart`). -/
theorem moveSelection_gesture :
    ∀ (ps : List Vec2) (s : UXState) (last : Vec2) (id : Nat) (b : Box),
      ps.getLast? = some last →
      s.view.selectedComponents.Nodup →
      id ∈ s.view.selectedComponents →
      s.view.components[id]? = some b →
      (ps.foldl moveSelectionAction s).view.components[id]? =
        some ⟨HMM_Add b.center (HMM_Sub last s.downStart), b.halfSize⟩ := by
  intro ps
  induction ps with
  | nil => intro s last id b hlast; exact absurd hlast (by simp)
  | cons p t ih =>
      intro s last id b hlast hnd hid hb
      cases t with
      | nil =>
          rw [List.getLast?_singleton] at hlast
          cases hlast
          simpa using moveSelectionAction_component s p hnd id b hid hb
      | cons q r =>
          rw [List.getLast?_cons_cons] at hlast
          have hstep := moveSelectionAction_component s p hnd id b hid hb
          have hsel : (moveSelectionAction s p).view.selectedComponents =
              s.view.selectedComponents := rfl
          have hds : (moveSelectionAction s p).downStart = p := rfl
          have := ih (moveSelectionAction s p) last id
            ⟨HMM_Add b.center (HMM_Sub p s.downStart), b.halfSize⟩
            hlast (hsel ▸ hnd) (hsel ▸ hid) hstep
          rw [List.foldl_cons, this, hds, HMM_add_sub_chain]

/-- Claim C4: a frame resident in `MoveSelection` adds
`delta = pos - downStart` to every selected component's center and to the
selection box center and then resets `downStart` to `pos`; consequently over
a whole gesture the per-frame deltas accumulate so the final center is the
starting center plus the total pointer displacement. -/
theorem moveSelection_applies_delta :
    ∀ (s : UXState) (pos : Vec2) (ps : List Vec2) (last : Vec2)
      (id : Nat) (b : Box),
      s.view.selectedComponents.Nodup →
      id ∈ s.view.selectedComponents →
      s.view.components[id]? = some b →
      ps.getLast? = some last →
      (moveSelectionAction s pos).downStart = pos ∧
        (moveSelectionAction s pos).view.selectionBox.center =
          HMM_Add s.view.selectionBox.center (HMM_Sub pos s.downStart) ∧
        (moveSelectionAction s pos).view.components[id]? =
          some ⟨HMM_Add b.center (HMM_Sub pos s.downStart), b.halfSize⟩ ∧
        (ps.foldl moveSelectionAction s).view.components[id]? =
          some ⟨HMM_Add b.center (HMM_Sub last s.downStart), b.halfSize⟩ := by
  intro s pos ps last id b hnd hid hb hlast
  exact ⟨rfl, rfl, moveSelectionAction_component s pos hnd id b hid hb,
    moveSelection_gesture ps s last id b hlast hnd hid hb⟩

/-- Witness for C4: one component at the origin, selected, dragged through
pointer positions (1, 1) then (3, 5) starting from `downStart = (0, 0)`: the
final center is (3, 5). -/
theorem moveSelection_applies_delta_witness :
    (moveSelectionAction
        ⟨⟨[⟨(0, 0), (2, 2)⟩], [0], ⟨(0, 0), (0, 0)⟩, none, none, 1⟩,
          .moveSelection, (0, 0)⟩ (1, 1)).downStart = (1, 1) ∧
      (moveSelectionAction
          ⟨⟨[⟨(0, 0), (2, 2)⟩], [0], ⟨(0, 0), (0, 0)⟩, none, none, 1⟩,
            .moveSelection, (0, 0)⟩ (1, 1)).view.selectionBox.center =
        HMM_Add (0, 0) (HMM_Sub (1, 1) (0, 0)) ∧
      (moveSelectionAction
          ⟨⟨[⟨(0, 0), (2, 2)⟩], [0], ⟨(0, 0), (0, 0)⟩, none, none, 1⟩,
            .moveSelection, (0, 0)⟩ (1, 1)).view.components[0]? =
        some ⟨HMM_Add (0, 0) (HMM_Sub (1, 1) (0, 0)), (2, 2)⟩ ∧
      (List.foldl moveSelectionAction
          ⟨⟨[⟨(0, 0), (2, 2)⟩], [0], ⟨(0, 0), (0, 0)⟩, none, none, 1⟩,
            .moveSelection, (0, 0)⟩
          [(1, 1), (3, 5)]).view.components[0]? =
        some ⟨HMM_Add (0, 0) (HMM_Sub (3, 5) (0, 0)), (2, 2)⟩ :=
  moveSelection_applies_delta
    ⟨⟨[⟨(0, 0), (2, 2)⟩], [0], ⟨(0, 0), (0, 0)⟩, none, none, 1⟩,
      .moveSelection, (0, 0)⟩
    (1, 1) [(1, 1), (3, 5)] (3, 5) 0 ⟨(0, 0), (2, 2)⟩
    (by decide) (by decide) rfl rfl

/-- `MAX_ZOOM` (ux.c line 24). -/
def MAX_ZOOM : ℚ := 20

/-- The zoom-exponent update of `ux_zoom` (ux.c lines 95-100): add
`scroll.Y * 0.5` and clamp to `[-MAX_ZOOM, MAX_ZOOM]`. -/
def ux_zoom_exp (zoomExp scrollY : ℚ) : ℚ :=
  if zoomExp + scrollY * (1 / 2) < -MAX_ZOOM then -MAX_ZOOM
  else if zoomExp + scrollY * (1 / 2) > MAX_ZOOM then MAX_ZOOM
  else zoomExp + scrollY * (1 / 2)

/-- The pan correction of `ux_zoom` (ux.c lines 105-117): world point under
the pointer at the old factor, world point at the new factor, and pan moved
by the scaled difference.  The zoom factors `powf(1.1f, zoomExp)` — always
positive, in particular nonzero — enter as parameters. -/
def ux_zoom_pan (pan mousePos : Vec2) (oldZoom newZoom : ℚ) : Vec2 :=
  HMM_Add pan
    (HMM_MulV2F
      (HMM_Sub (HMM_DivV2F (HMM_Sub mousePos pan) newZoom)
        (HMM_DivV2F (HMM_Sub mousePos pan) oldZoom))
      newZoom)

/-- Repeated zoom updates with a fixed scroll delta (ux.c line 95 applied
once per frame). -/
def zoomIter (δ : ℚ) (n : Nat) (e : ℚ) : ℚ :=
  (fun x => ux_zoom_exp x δ)^[n] e

/-- Claim C8: one zoom update keeps the world point under the pointer fixed:
for every pointer position, pan and pair of nonzero zoom factors, the world
position computed with the old pan and old factor equals the one computed
with the corrected pan and new factor (exact rational arithmetic). -/
theorem zoom_keeps_world_point :
    ∀ (pan mousePos : Vec2) (oldZoom newZoom : ℚ),
      oldZoom ≠ 0 → newZoom ≠ 0 →
      HMM_DivV2F (HMM_Sub mousePos (ux_zoom_pan pan mousePos oldZoom newZoom))
          newZoom =
        HMM_DivV2F (HMM_Sub mousePos pan) oldZoom := by
  intro pan mousePos oldZoom newZoom h1 h2
  simp only [ux_zoom_pan, HMM_Add, HMM_Sub, HMM_MulV2F, HMM_DivV2F,
    Prod.mk.injEq]
  constructor <;> (field_simp; ring)

/-- Witness for C8: pan (3, 4), pointer (10, 20), factor 1 → 2. -/
theorem zoom_keeps_world_point_witness :
    HMM_DivV2F (HMM_Sub (10, 20) (ux_zoom_pan (3, 4) (10, 20) 1 2)) 2 =
      HMM_DivV2F (HMM_Sub (10, 20) (3, 4)) 1 :=
  zoom_keeps_world_point (3, 4) (10, 20) 1 2 one_ne_zero two_ne_zero

/-- Every single update lands in the clamp interval. -/
theorem ux_zoom_exp_in_range (e δ : ℚ) :
    -MAX_ZOOM ≤ ux_zoom_exp e δ ∧ ux_zoom_exp e δ ≤ MAX_ZOOM := by
  simp only [ux_zoom_exp, MAX_ZOOM]
  split_ifs with h1 h2 <;> constructor <;> linarith

/-- Closed form of repeated positive-direction updates: the exponent is the
unclamped sum capped at `MAX_ZOOM`. -/
theorem zoomIter_closed_pos (δ e : ℚ) (hδ : 0 < δ) (he1 : -MAX_ZOOM ≤ e)
    (he2 : e ≤ MAX_ZOOM) :
    ∀ n : Nat, zoomIter δ n e = min (e + n * (δ * (1 / 2))) MAX_ZOOM := by
  simp only [MAX_ZOOM] at he1 he2 ⊢
  intro n
  induction n with
  | zero =>
      simp only [zoomIter, Function.iterate_zero, id_eq, Nat.cast_zero,
        zero_mul, add_zero]
      exact (min_eq_left he2).symm
  | succ n ih =>
      have hstep : zoomIter δ (n + 1) e = ux_zoom_exp (zoomIter δ n e) δ := by
        simp only [zoomIter, Function.iterate_succ_apply']
      have hn : 0 ≤ (n : ℚ) * (δ * (1 / 2)) := by positivity
      have hcast : ((n + 1 : ℕ) : ℚ) = (n : ℚ) + 1 := by push_cast; ring
      rw [hstep, ih]
      simp only [ux_zoom_exp, MAX_ZOOM, hcast]
      rcases le_total (e + (n : ℚ) * (δ * (1 / 2))) 20 with hA | hA
      · rw [min_eq_left hA]
        split_ifs with h1 h2
        · linarith
        · rw [min_eq_right] <;> linarith
        · rw [min_eq_left] <;> linarith
      · rw [min_eq_right hA]
        split_ifs with h1 h2
        · linarith
        · rw [min_eq_right] <;> linarith
        · linarith

/-- Closed form of repeated negative-direction updates: the exponent is the
unclamped sum floored at `-MAX_ZOOM`. -/
theorem zoomIter_closed_neg (δ e : ℚ) (hδ : δ < 0) (he1 : -MAX_ZOOM ≤ e)
    (he2 : e ≤ MAX_ZOOM) :
    ∀ n : Nat, zoomIter δ n e = max (e + n * (δ * (1 / 2))) (-MAX_ZOOM) := by
  simp only [MAX_ZOOM] at he1 he2 ⊢
  intro n
  induction n with
  | zero =>
      simp only [zoomIter, Function.iterate_zero, id_eq, Nat.cast_zero,
        zero_mul, add_zero]
      exact (max_eq_left he1).symm
  | succ n ih =>
      have hstep : zoomIter δ (n + 1) e = ux_zoom_exp (zoomIter δ n e) δ := by
        simp only [zoomIter, Function.iterate_succ_apply']
      have hn : (n : ℚ) * (δ * (1 / 2)) ≤ 0 := by
        have : (0 : ℚ) ≤ (n : ℚ) := Nat.cast_nonneg n
        nlinarith
      have hcast : ((n + 1 : ℕ) : ℚ) = (n : ℚ) + 1 := by push_cast; ring
      rw [hstep, ih]
      simp only [ux_zoom_exp, MAX_ZOOM, hcast]
      rcases le_total (e + (n : ℚ) * (δ * (1 / 2))) (-20) with hA | hA
      · rw [max_eq_right hA]
        split_ifs with h1 h2
        · rw [max_eq_right] <;> linarith
        · linarith
        · linarith
      · rw [max_eq_left hA]
        split_ifs with h1 h2
        · rw [max_eq_right] <;> linarith
        · rw [max_eq_left] <;> linarith
        · rw [max_eq_left] <;> linarith

/-- Claim C9: every zoom update clamps the exponent into
`[-MAX_ZOOM, MAX_ZOOM]`; repeatedly scrolling with a fixed positive delta
eventually pins the exponent at exactly `MAX_ZOOM` and every further scroll
leaves it there, and symmetrically a fixed negative delta pins it at exactly
`-MAX_ZOOM`. -/
theorem zoom_exp_clamped :
    ∀ (e δ : ℚ),
      (-MAX_ZOOM ≤ ux_zoom_exp e δ ∧ ux_zoom_exp e δ ≤ MAX_ZOOM) ∧
      (0 < δ → -MAX_ZOOM ≤ e → e ≤ MAX_ZOOM →
        ∃ n : Nat, ∀ m : Nat, n ≤ m → zoomIter δ m e = MAX_ZOOM) ∧
      (δ < 0 → -MAX_ZOOM ≤ e → e ≤ MAX_ZOOM →
        ∃ n : Nat, ∀ m : Nat, n ≤ m → zoomIter δ m e = -MAX_ZOOM) := by
  intro e δ
  refine ⟨ux_zoom_exp_in_range e δ, fun hδ he1 he2 => ?_, fun hδ he1 he2 => ?_⟩
  · obtain ⟨n, hn⟩ := exists_nat_ge ((MAX_ZOOM - e) / (δ * (1 / 2)))
    refine ⟨n, fun m hm => ?_⟩
    rw [zoomIter_closed_pos δ e hδ he1 he2 m]
    refine min_eq_right ?_
    have hnm : (n : ℚ) ≤ (m : ℚ) := Nat.cast_le.mpr hm
    have hhalf : 0 < δ * (1 / 2) := by linarith
    have h1 : (MAX_ZOOM - e) / (δ * (1 / 2)) ≤ (m : ℚ) := le_trans hn hnm
    rw [div_le_iff hhalf] at h1
    linarith
  · obtain ⟨n, hn⟩ := exists_nat_ge ((-MAX_ZOOM - e) / (δ * (1 / 2)))
    refine ⟨n, fun m hm => ?_⟩
    rw [zoomIter_closed_neg δ e hδ he1 he2 m]
    refine max_eq_right ?_
    have hnm : (n : ℚ) ≤ (m : ℚ) := Nat.cast_le.mpr hm
    have hhalf : δ * (1 / 2) < 0 := by linarith
    have h1 : (-MAX_ZOOM - e) / (δ * (1 / 2)) ≤ (m : ℚ) := le_trans hn hnm
    rw [div_le_iff_of_neg hhalf] at h1
    linarith

/-- Witness for C9: starting exponent 0, scroll delta +1: the bounds hold and
the exponent eventually pins at `MAX_ZOOM`. -/
theorem zoom_exp_clamped_witness :
    (-MAX_ZOOM ≤ ux_zoom_exp 0 1 ∧ ux_zoom_exp 0 1 ≤ MAX_ZOOM) ∧
      ∃ n : Nat, ∀ m : Nat, n ≤ m → zoomIter 1 m 0 = MAX_ZOOM :=
  ⟨(zoom_exp_clamped 0 1).1,
    (zoom_exp_clamped 0 1).2.1 (by norm_num) (by norm_num [MAX_ZOOM])
      (by norm_num [MAX_ZOOM])⟩

/-- The per-net vertex reconciliation of `ux_route` (ux.c lines 395-412),
as a function of the net's interior-vertex list and the freshly routed path
(the flat `coords` buffer already paired into points, `len` = point count).
A path of two or fewer points is skipped.  Otherwise the interior count —
`curSize - 2` in the source, where `curSize` counts the two fixed endpoints —
is grown by appending `(0, 0)` placeholders (`ux_add_vertex`) or shrunk by
popping trailing vertices (`ux_rem_vertex`, guarded by `curSize > 2`, i.e.
never below zero interior vertices — a guard that cannot bind here since the
target `len - 2` is at least one), and every interior slot `j` is overwritten
with path point `j + 1` (`ux_set_vertex`). -/
def routeNet (verts : List Vec2) (path : List Vec2) : List Vec2 :=
  if path.length ≤ 2 then verts
  else
    let target := path.length - 2
    let resized :=
      if verts.length < target then
        verts ++ List.replicate (target - verts.length) ((0 : ℚ), (0 : ℚ))
      else verts.take target
    (List.range target).foldl
      (fun vs j => vs.set j (path.getD (j + 1) ((0 : ℚ), (0 : ℚ)))) resized

/-- Setting an index just past a left part appends-in-place into the right
part. -/
theorem set_append_length (l1 l2 : List Vec2) (a : Vec2) :
    ∀ i : Nat, i = l1.length → (l1 ++ l2).set i a = l1 ++ l2.set 0 a := by
  induction l1 with
  | nil => intro i hi; subst hi; simp
  | cons x t ih =>
      intro i hi
      subst hi
      simp only [List.length_cons, List.cons_append, List.set, List.append_eq]
      rw [ih _ rfl]

/-- Writing `f j` into slot `j` for every `j < n` of a list of length at
least `n` yields the table of `f` followed by the untouched tail. -/
theorem foldl_set_range (f : Nat → Vec2) :
    ∀ (n : Nat) (vs : List Vec2), n ≤ vs.length →
      (List.range n).foldl (fun l j => l.set j (f j)) vs =
        ((List.range n).map f) ++ vs.drop n := by
  intro n
  induction n with
  | zero => intro vs _; simp
  | succ n ih =>
      intro vs hn
      have hn' : n ≤ vs.length := Nat.le_of_succ_le hn
      have hlt : n < vs.length := hn
      have hlen : n = ((List.range n).map f).length := by simp
      rw [List.range_succ, List.foldl_append, ih vs hn']
      simp only [List.foldl_cons, List.foldl_nil]
      rw [set_append_length _ _ _ _ hlen, List.drop_eq_getElem_cons hlt]
      simp [List.set, List.append_assoc]

/-- For a path longer than two points the reconciled vertex list is the
table of interior path points — independent of the previous vertices. -/
theorem routeNet_closed_form (verts path : List Vec2) (h : 2 < path.length) :
    routeNet verts path =
      (List.range (path.length - 2)).map
        (fun j => path.getD (j + 1) ((0 : ℚ), (0 : ℚ))) := by
  rw [routeNet, if_neg (by omega)]
  set target := path.length - 2 with ht
  set resized :=
    if verts.length < target then
      verts ++ List.replicate (target - verts.length) ((0 : ℚ), (0 : ℚ))
    else verts.take target with hr
  have hlen : resized.length = target := by
    rw [hr]
    split_ifs with hv
    · simp; omega
    · simp; omega
  rw [foldl_set_range _ target resized (le_of_eq hlen.symm)]
  rw [List.drop_eq_nil_of_le (le_of_eq hlen), List.append_nil]

/-- Claim C7: route synchronization is idempotent — re-running it with the
same path changes nothing — and for a path of more than two points it leaves
exactly `pathLen - 2` interior vertices, while a path of two or fewer points
leaves the vertex list untouched. -/
theorem routeNet_idempotent :
    ∀ (verts path : List Vec2),
      routeNet (routeNet verts path) path = routeNet verts path ∧
      (2 < path.length → (routeNet verts path).length = path.length - 2) ∧
      (path.length ≤ 2 → routeNet verts path = verts) := by
  intro verts path
  rcases le_or_lt path.length 2 with h | h
  · have he : routeNet verts path = verts := by rw [routeNet, if_pos h]
    refine ⟨?_, fun hc => absurd h (by omega), fun _ => he⟩
    rw [he, he]
  · refine ⟨?_, fun _ => ?_, fun hc => absurd h (by omega)⟩
    · rw [routeNet_closed_form _ path h, routeNet_closed_form _ path h]
    · rw [routeNet_closed_form _ path h]
      simp

/-- Witness for C7: a four-point path against a one-vertex net: both calls
agree, the interior count is 2, and a two-point path leaves vertices
alone. -/
theorem routeNet_idempotent_witness :
    (routeNet (routeNet [((5 : ℚ), (5 : ℚ))]
          [(0, 0), (1, 1), (2, 2), (3, 3)]) [(0, 0), (1, 1), (2, 2), (3, 3)] =
        routeNet [((5 : ℚ), (5 : ℚ))] [(0, 0), (1, 1), (2, 2), (3, 3)]) ∧
      (2 < ([(0, 0), (1, 1), (2, 2), (3, 3)] : List Vec2).length →
        (routeNet [((5 : ℚ), (5 : ℚ))]
            [(0, 0), (1, 1), (2, 2), (3, 3)]).length =
          ([(0, 0), (1, 1), (2, 2), (3, 3)] : List Vec2).length - 2) ∧
      (([(0, 0), (1, 1), (2, 2), (3, 3)] : List Vec2).length ≤ 2 →
        routeNet [((5 : ℚ), (5 : ℚ))] [(0, 0), (1, 1), (2, 2), (3, 3)] =
          [((5 : ℚ), (5 : ℚ))]) :=
  routeNet_idempotent [((5 : ℚ), (5 : ℚ))] [(0, 0), (1, 1), (2, 2), (3, 3)]
